import Mathlib

/-!
Shallow embedding of the bevy-building-blocks voxel-map core:
the voxel palette (`src/map.rs`), the octree generator system
(`src/bvt.rs`), the empty-chunk remover (`src/map_io/empty_chunk_remover.rs`)
and the chunk compressor (`src/map_io/chunk_compressor.rs`), together with
theorems settling the frozen claims about them.

Machine integers are modelled as `Nat`/`Int`; chunk keys (`Point3i`) as
triples of integers; fallible operations (Rust `unwrap`/`panic`) as
`Option`.  External `building_blocks` library types used only at their
boundary (`OctreeSet`, the LZ4 codec, the compressible chunk storage) are
modelled from the spec, as marked on each definition.
-/

set_option autoImplicit false

namespace BevyBuildingBlocks

/-- A chunk key: an integer 3D coordinate (`Point3i` in `building_blocks`). -/
abbrev Point3i := Int × Int × Int

/-- The `Voxel` trait of the repository: each voxel stores its type as a
number, an index into the `VoxelPalette` (`get_type_index`). -/
class Voxel (V : Type) where
  get_type_index : V → Nat

/-- `VoxelPalette` from `src/map.rs`: an ordered table of per-type metadata. -/
structure VoxelPalette (I : Type) where
  infos : List I

/-- `VoxelPalette::get_voxel_type_info` from `src/map.rs`: indexes `infos`
by the voxel's type index (`&self.infos[voxel.get_type_index()]`).  A Rust
out-of-bounds index panics; the panic is modelled as `none`. -/
def VoxelPalette.get_voxel_type_info {I V : Type} [Voxel V]
    (p : VoxelPalette I) (voxel : V) : Option I :=
  p.infos.get? (Voxel.get_type_index voxel)

instance : Voxel Nat := ⟨fun n => n⟩

/-- A chunk: a dense array of voxels over the chunk's extent, modelled as
the list of its voxel values. -/
structure Chunk (V : Type) where
  array : List V
deriving DecidableEq

/-- Association-list lookup keyed by chunk key, used to model the maps of
the store and the BVT. -/
def lookupKey {α : Type} (k : Point3i) : List (Point3i × α) → Option α
  | [] => none
  | (k', v) :: rest => if k' = k then some v else lookupKey k rest

/-- Remove every entry with the given key from an association list. -/
def removeKey {α : Type} (k : Point3i) : List (Point3i × α) → List (Point3i × α)
  | [] => []
  | (k', v) :: rest => if k' = k then removeKey k rest else (k', v) :: removeKey k rest

/-- Insert-or-replace an entry in an association list. -/
def insertKey {α : Type} (k : Point3i) (v : α) (l : List (Point3i × α)) :
    List (Point3i × α) :=
  (k, v) :: removeKey k l

theorem lookupKey_insertKey_self {α : Type} (k : Point3i) (v : α)
    (l : List (Point3i × α)) : lookupKey k (insertKey k v l) = some v := by
  simp [insertKey, lookupKey]

theorem lookupKey_removeKey_self {α : Type} (k : Point3i)
    (l : List (Point3i × α)) : lookupKey k (removeKey k l) = none := by
  induction l with
  | nil => rfl
  | cons kv rest ih =>
    obtain ⟨k', v⟩ := kv
    by_cases h : k' = k <;> simp [removeKey, lookupKey, h, ih]

theorem lookupKey_removeKey_ne {α : Type} {k k' : Point3i} (h : k' ≠ k)
    (l : List (Point3i × α)) : lookupKey k' (removeKey k l) = lookupKey k' l := by
  induction l with
  | nil => rfl
  | cons kv rest ih =>
    obtain ⟨k'', v⟩ := kv
    by_cases hk : k'' = k
    · subst hk
      simp [removeKey, lookupKey, Ne.symm h, ih]
    · by_cases hk' : k'' = k' <;> simp [removeKey, lookupKey, h, hk, hk', ih]

theorem lookupKey_insertKey_ne {α : Type} {k k' : Point3i} (h : k' ≠ k)
    (v : α) (l : List (Point3i × α)) :
    lookupKey k' (insertKey k v l) = lookupKey k' l := by
  simp [insertKey, lookupKey, Ne.symm h, lookupKey_removeKey_ne h]

/-- Modelled from the spec: the external `building_blocks` `OctreeSet` is a
compact occupancy octree over a chunk, "summarizing which sub-regions of the
chunk contain non-empty voxels"; here it is represented by the set of array
indices of the chunk's non-empty voxels. -/
structure OctreeSet where
  occupied : List Nat
deriving DecidableEq

/-- Modelled from the spec: `OctreeSet::is_empty` holds when no sub-region is
occupied, i.e. the chunk is "entirely composed of empty type voxels". -/
def OctreeSet.is_empty (o : OctreeSet) : Bool :=
  o.occupied.isEmpty

/-- Modelled from the spec: `OctreeSet::from_array3` applied to the
`TransformMap` of a chunk (`src/bvt.rs` lines 75-79) marks as occupied
exactly the voxels whose palette type is not empty.  `isEmptyV` is the
composition of `map.voxel_info_transform()` with the `IsEmpty` trait. -/
def OctreeSet.from_array3 {V : Type} (isEmptyV : V → Bool) (c : Chunk V) :
    OctreeSet :=
  ⟨(c.array.enum.filter (fun p => !isEmptyV p.2)).map Prod.fst⟩

/-- The built octree is empty exactly when every voxel of the chunk is of an
empty palette type. -/
theorem OctreeSet.from_array3_is_empty_iff {V : Type} (isEmptyV : V → Bool)
    (c : Chunk V) :
    (OctreeSet.from_array3 isEmptyV c).is_empty = true ↔
      ∀ v ∈ c.array, isEmptyV v = true := by
  simp only [OctreeSet.from_array3, OctreeSet.is_empty, List.isEmpty_iff,
    List.map_eq_nil_iff, List.filter_eq_nil_iff]
  constructor
  · intro h v hv
    obtain ⟨i, hi⟩ := List.mem_iff_get.mp hv
    have := h (i.1, v)
    simp only [Bool.not_eq_true', Bool.not_eq_false] at this
    exact this (by
      refine List.mem_enum_iff_getElem?.mpr ?_
      simp [← hi, List.getElem?_eq_getElem])
  · intro h p hp
    have : p.2 ∈ c.array := List.snd_mem_of_mem_enum hp
    simp [h p.2 this]

/-- `EmptyChunks` from `src/map_io/empty_chunk_remover.rs`: the resource
tracking which chunks recently became empty and should be removed. -/
structure EmptyChunks where
  chunks_to_remove : List Point3i
deriving DecidableEq

/-- `EmptyChunks::mark_for_removal`: pushes the chunk key onto
`chunks_to_remove`. -/
def EmptyChunks.mark_for_removal (e : EmptyChunks) (chunk_key : Point3i) :
    EmptyChunks :=
  ⟨e.chunks_to_remove ++ [chunk_key]⟩

/-- `VoxelBVT` from `src/bvt.rs`: an `OctreeDBVT` mapping chunk keys to
chunk `OctreeSet`s, modelled as an association list. -/
abbrev VoxelBVT := List (Point3i × OctreeSet)

/-- The state mutated by `octree_generator_system`: the BVT resource and the
`EmptyChunks` resource. -/
structure GenState where
  voxel_bvt : VoxelBVT
  empty_chunks : EmptyChunks
deriving DecidableEq

/-- `generate_octree_for_each_chunk` from `src/bvt.rs`: for every dirty
chunk key, read the chunk from the map (`reader.get_chunk(chunk_key)
.unwrap()`; the `unwrap` panic on an absent key is modelled as `none`
propagation) and build its occupancy octree.  The parallel `pool.scope` is
a fork-join batch whose results are collected in spawn order. -/
def generate_octree_for_each_chunk {V : Type} (isEmptyV : V → Bool)
    (dirty_chunks : List Point3i) (map : List (Point3i × Chunk V)) :
    Option (List (Point3i × OctreeSet)) :=
  match dirty_chunks with
  | [] => some []
  | chunk_key :: rest =>
    match lookupKey chunk_key map with
    | none => none
    | some chunk =>
      (generate_octree_for_each_chunk isEmptyV rest map).map
        (fun l => (chunk_key, OctreeSet.from_array3 isEmptyV chunk) :: l)

/-- The body of the loop in `octree_generator_system` (`src/bvt.rs` lines
49-56): an empty octree removes the BVT entry and marks the key for
removal; a non-empty one is inserted (replacing any existing entry). -/
def octree_generator_step (st : GenState) (kv : Point3i × OctreeSet) :
    GenState :=
  if kv.2.is_empty then
    { voxel_bvt := removeKey kv.1 st.voxel_bvt,
      empty_chunks := st.empty_chunks.mark_for_removal kv.1 }
  else
    { voxel_bvt := insertKey kv.1 kv.2 st.voxel_bvt,
      empty_chunks := st.empty_chunks }

/-- `octree_generator_system` from `src/bvt.rs`: generates octrees for all
dirty chunks, then folds the insert/remove policy over the results.
Returns `none` when `generate_octree_for_each_chunk` panics. -/
def octree_generator_system {V : Type} (isEmptyV : V → Bool)
    (dirty_chunks : List Point3i) (map : List (Point3i × Chunk V))
    (st : GenState) : Option GenState :=
  (generate_octree_for_each_chunk isEmptyV dirty_chunks map).map
    (fun new_chunk_octrees => new_chunk_octrees.foldl octree_generator_step st)

theorem generate_keys_eq {V : Type} (isEmptyV : V → Bool)
    (dirty_chunks : List Point3i) (map : List (Point3i × Chunk V))
    (l : List (Point3i × OctreeSet))
    (h : generate_octree_for_each_chunk isEmptyV dirty_chunks map = some l) :
    l.map Prod.fst = dirty_chunks := by
  induction dirty_chunks generalizing l with
  | nil =>
    simp only [generate_octree_for_each_chunk, Option.some.injEq] at h
    simp [← h]
  | cons k rest ih =>
    simp only [generate_octree_for_each_chunk] at h
    cases hk : lookupKey k map with
    | none => simp [hk] at h
    | some chunk =>
      rw [hk] at h
      cases hrest : generate_octree_for_each_chunk isEmptyV rest map with
      | none => simp [hrest] at h
      | some l' =>
        rw [hrest] at h
        simp only [Option.map_some', Option.some.injEq] at h
        subst h
        simp [ih l' hrest]

theorem generate_mem_eq {V : Type} (isEmptyV : V → Bool)
    (dirty_chunks : List Point3i) (map : List (Point3i × Chunk V))
    (l : List (Point3i × OctreeSet)) (k : Point3i) (o : OctreeSet)
    (h : generate_octree_for_each_chunk isEmptyV dirty_chunks map = some l)
    (hmem : (k, o) ∈ l) :
    ∃ chunk, lookupKey k map = some chunk ∧
      o = OctreeSet.from_array3 isEmptyV chunk := by
  induction dirty_chunks generalizing l with
  | nil =>
    simp only [generate_octree_for_each_chunk, Option.some.injEq] at h
    subst h
    simp at hmem
  | cons k' rest ih =>
    simp only [generate_octree_for_each_chunk] at h
    cases hk : lookupKey k' map with
    | none => simp [hk] at h
    | some chunk =>
      rw [hk] at h
      cases hrest : generate_octree_for_each_chunk isEmptyV rest map with
      | none => simp [hrest] at h
      | some l' =>
        rw [hrest] at h
        simp only [Option.map_some', Option.some.injEq] at h
        subst h
        rcases List.mem_cons.mp hmem with heq | hmem'
        · have h1 : k = k' := congrArg Prod.fst heq
          have h2 : o = OctreeSet.from_array3 isEmptyV chunk :=
            congrArg Prod.snd heq
          exact ⟨chunk, by rw [h1, hk], h2⟩
        · exact ih l' hrest hmem'

/-- Folding the generator step over pairs whose keys avoid `k` leaves the
BVT entry at `k` and the marking of `k` unchanged. -/
theorem foldl_step_not_mem (l : List (Point3i × OctreeSet)) (st : GenState)
    (k : Point3i) (hk : k ∉ l.map Prod.fst) :
    lookupKey k (l.foldl octree_generator_step st).voxel_bvt =
      lookupKey k st.voxel_bvt ∧
    (k ∈ (l.foldl octree_generator_step st).empty_chunks.chunks_to_remove ↔
      k ∈ st.empty_chunks.chunks_to_remove) := by
  induction l generalizing st with
  | nil => simp
  | cons kv rest ih =>
    obtain ⟨k', o⟩ := kv
    simp only [List.map_cons, List.mem_cons, not_or] at hk
    obtain ⟨hne, hrest⟩ := hk
    have step := ih (octree_generator_step st (k', o)) hrest
    refine ⟨?_, ?_⟩
    · rw [List.foldl_cons, step.1]
      by_cases he : o.is_empty <;>
        simp [octree_generator_step, he, lookupKey_removeKey_ne hne,
          lookupKey_insertKey_ne hne]
    · rw [List.foldl_cons, step.2]
      by_cases he : o.is_empty <;>
        simp [octree_generator_step, he, EmptyChunks.mark_for_removal, hne]

/-- Folding the generator step over pairs with distinct keys settles the
entry at each key: an empty octree leaves no BVT entry and marks the key,
a non-empty one leaves exactly the new octree. -/
theorem foldl_step_mem (l : List (Point3i × OctreeSet)) (st : GenState)
    (k : Point3i) (o : OctreeSet) (hnd : (l.map Prod.fst).Nodup)
    (hmem : (k, o) ∈ l) :
    (o.is_empty = true →
      lookupKey k (l.foldl octree_generator_step st).voxel_bvt = none ∧
      k ∈ (l.foldl octree_generator_step st).empty_chunks.chunks_to_remove) ∧
    (o.is_empty = false →
      lookupKey k (l.foldl octree_generator_step st).voxel_bvt = some o) := by
  induction l generalizing st with
  | nil => simp at hmem
  | cons kv rest ih =>
    obtain ⟨k₁, o₁⟩ := kv
    simp only [List.map_cons, List.nodup_cons] at hnd
    obtain ⟨hk₁, hndrest⟩ := hnd
    rcases List.mem_cons.mp hmem with heq | hmem'
    · have hkk : k = k₁ := congrArg Prod.fst heq
      have hoo : o = o₁ := congrArg Prod.snd heq
      subst hkk
      subst hoo
      have hnot : k ∉ rest.map Prod.fst := hk₁
      have pres := foldl_step_not_mem rest (octree_generator_step st (k, o)) k hnot
      rw [List.foldl_cons]
      constructor
      · intro he
        refine ⟨?_, ?_⟩
        · rw [pres.1]
          simp [octree_generator_step, he, lookupKey_removeKey_self]
        · rw [pres.2]
          simp [octree_generator_step, he, EmptyChunks.mark_for_removal]
      · intro he
        rw [pres.1]
        simp [octree_generator_step, he, lookupKey_insertKey_self]
    · have hkrest : k ∈ rest.map Prod.fst :=
        List.mem_map.mpr ⟨(k, o), hmem', rfl⟩
      rw [List.foldl_cons]
      exact ih (octree_generator_step st (k₁, o₁)) hndrest hmem'

/-- C1: for every chunk key in the current Dirty Chunks set processed by
octree regeneration, if the occupancy octree built for that chunk is empty
(every voxel of the chunk maps to an empty palette type) then any existing
Spatial Index Entry for that key is removed from the BVT and the key is
marked in Empty Chunks for removal; otherwise the Spatial Index Entry for
that key is inserted or replaced with the newly built octree. -/
theorem octree_generator_system_dirty_key_spec {V : Type}
    (isEmptyV : V → Bool) (dirty_chunks : List Point3i)
    (map : List (Point3i × Chunk V)) (st st' : GenState) (k : Point3i)
    (c : Chunk V) (hnd : dirty_chunks.Nodup)
    (hrun : octree_generator_system isEmptyV dirty_chunks map st = some st')
    (hk : k ∈ dirty_chunks) (hc : lookupKey k map = some c) :
    ((∀ v ∈ c.array, isEmptyV v = true) →
      lookupKey k st'.voxel_bvt = none ∧
      k ∈ st'.empty_chunks.chunks_to_remove) ∧
    (¬ (∀ v ∈ c.array, isEmptyV v = true) →
      lookupKey k st'.voxel_bvt =
        some (OctreeSet.from_array3 isEmptyV c)) := by
  simp only [octree_generator_system] at hrun
  cases hgen : generate_octree_for_each_chunk isEmptyV dirty_chunks map with
  | none => simp [hgen] at hrun
  | some l =>
    rw [hgen] at hrun
    simp only [Option.map_some', Option.some.injEq] at hrun
    subst hrun
    have hkeys : l.map Prod.fst = dirty_chunks :=
      generate_keys_eq isEmptyV dirty_chunks map l hgen
    have hndl : (l.map Prod.fst).Nodup := by rw [hkeys]; exact hnd
    have hkl : k ∈ l.map Prod.fst := by rw [hkeys]; exact hk
    obtain ⟨⟨k₀, o⟩, hmem, hfst⟩ := List.mem_map.mp hkl
    dsimp only at hfst
    subst hfst
    obtain ⟨chunk, hchunk, ho⟩ :=
      generate_mem_eq isEmptyV dirty_chunks map l k₀ o hgen hmem
    rw [hc] at hchunk
    injection hchunk with hcc
    subst hcc
    subst ho
    have main := foldl_step_mem l st k₀ (OctreeSet.from_array3 isEmptyV c)
      hndl hmem
    constructor
    · intro hall
      exact main.1 ((OctreeSet.from_array3_is_empty_iff isEmptyV c).mpr hall)
    · intro hnall
      refine main.2 ?_
      rcases Bool.eq_false_or_eq_true
        (OctreeSet.from_array3 isEmptyV c).is_empty with ht | hf
      · exact absurd ((OctreeSet.from_array3_is_empty_iff isEmptyV c).mp ht)
          hnall
      · exact hf

/-- Witness for C1 on a concrete map: the dirty chunk `[0, 1]` is not all
empty (with `0` the empty type), so the run installs its octree in the
BVT. -/
theorem octree_generator_system_dirty_key_spec_witness :
    lookupKey (0, 0, 0)
      ((octree_generator_system (fun v : Nat => decide (v = 0)) [(0, 0, 0)]
        [((0, 0, 0), ⟨[0, 1]⟩)] ⟨[], ⟨[]⟩⟩).getD ⟨[], ⟨[]⟩⟩).voxel_bvt =
      some (OctreeSet.from_array3 (fun v : Nat => decide (v = 0)) ⟨[0, 1]⟩) := by
  have := octree_generator_system_dirty_key_spec (fun v : Nat => decide (v = 0))
    [(0, 0, 0)] [((0, 0, 0), ⟨[0, 1]⟩)] ⟨[], ⟨[]⟩⟩
    ((octree_generator_system (fun v => decide (v = 0)) [(0, 0, 0)]
      [((0, 0, 0), ⟨[0, 1]⟩)] ⟨[], ⟨[]⟩⟩).getD ⟨[], ⟨[]⟩⟩)
    (0, 0, 0) ⟨[0, 1]⟩ (by decide) (by decide) (by decide) (by decide)
  exact this.2 (by decide)

/-- C10: one run of the octree generator system modifies the BVT only at
dirty chunk keys and marks only dirty keys: a key outside the dirty set
keeps its BVT entry (present or absent) and is never newly marked. -/
theorem octree_generator_system_untouched_key {V : Type}
    (isEmptyV : V → Bool) (dirty_chunks : List Point3i)
    (map : List (Point3i × Chunk V)) (st st' : GenState) (k : Point3i)
    (hrun : octree_generator_system isEmptyV dirty_chunks map st = some st')
    (hk : k ∉ dirty_chunks) :
    lookupKey k st'.voxel_bvt = lookupKey k st.voxel_bvt ∧
    (k ∈ st'.empty_chunks.chunks_to_remove ↔
      k ∈ st.empty_chunks.chunks_to_remove) := by
  simp only [octree_generator_system] at hrun
  cases hgen : generate_octree_for_each_chunk isEmptyV dirty_chunks map with
  | none => simp [hgen] at hrun
  | some l =>
    rw [hgen] at hrun
    simp only [Option.map_some', Option.some.injEq] at hrun
    subst hrun
    have hkeys : l.map Prod.fst = dirty_chunks :=
      generate_keys_eq isEmptyV dirty_chunks map l hgen
    exact foldl_step_not_mem l st k (by rw [hkeys]; exact hk)

/-- Witness for C10: a key absent from the dirty set keeps its BVT entry. -/
theorem octree_generator_system_untouched_key_witness :
    lookupKey (5, 5, 5)
      ((octree_generator_system (fun v : Nat => decide (v = 0)) [(0, 0, 0)]
        [((0, 0, 0), ⟨[1]⟩)]
        ⟨[((5, 5, 5), ⟨[3]⟩)], ⟨[]⟩⟩).getD ⟨[], ⟨[]⟩⟩).voxel_bvt =
      lookupKey (5, 5, 5)
        (⟨[((5, 5, 5), ⟨[3]⟩)], ⟨[]⟩⟩ : GenState).voxel_bvt := by
  have := octree_generator_system_untouched_key (fun v : Nat => decide (v = 0))
    [(0, 0, 0)] [((0, 0, 0), ⟨[1]⟩)] ⟨[((5, 5, 5), ⟨[3]⟩)], ⟨[]⟩⟩
    ((octree_generator_system (fun v => decide (v = 0)) [(0, 0, 0)]
      [((0, 0, 0), ⟨[1]⟩)] ⟨[((5, 5, 5), ⟨[3]⟩)], ⟨[]⟩⟩).getD ⟨[], ⟨[]⟩⟩)
    (5, 5, 5) (by decide) (by decide)
  exact this.1

/-- C4 counterexample: with dirty key `(0,0,0)` absent from the Voxel Map,
`generate_octree_for_each_chunk` panics (`.unwrap()` on `None`, modelled as
`none`) instead of skipping the key and continuing — a silent no-op skip
would instead yield the empty result list `some []`.  The `unwrap` panics
in release builds just as in debug builds, so the claim's release-build
behaviour does not hold. -/
theorem generate_octree_absent_key_panics_counterexample :
    generate_octree_for_each_chunk (fun v : Nat => decide (v = 0))
      [(0, 0, 0)] [] = none ∧
    generate_octree_for_each_chunk (fun v : Nat => decide (v = 0))
      [(0, 0, 0)] [] ≠ some [] := by
  refine ⟨rfl, ?_⟩
  intro h
  simp [generate_octree_for_each_chunk, lookupKey] at h

/-- C4 amended: looking up a dirty chunk key absent from the Voxel Map is a
fatal invariant violation in every build profile: the `unwrap` in
`generate_octree_for_each_chunk` panics (modelled as `none`), aborting the
whole octree generator run rather than skipping the key. -/
theorem octree_generator_system_absent_key_panics {V : Type}
    (isEmptyV : V → Bool) (dirty_chunks : List Point3i)
    (map : List (Point3i × Chunk V)) (st : GenState) (k : Point3i)
    (hk : k ∈ dirty_chunks) (hc : lookupKey k map = none) :
    octree_generator_system isEmptyV dirty_chunks map st = none := by
  have hgen : generate_octree_for_each_chunk isEmptyV dirty_chunks map
      = none := by
    induction dirty_chunks with
    | nil => simp at hk
    | cons k' rest ih =>
      rcases List.mem_cons.mp hk with heq | hmem
      · subst heq
        simp [generate_octree_for_each_chunk, hc]
      · cases hlook : lookupKey k' map with
        | none => simp [generate_octree_for_each_chunk, hlook]
        | some chunk =>
          simp [generate_octree_for_each_chunk, hlook, ih hmem]
  simp [octree_generator_system, hgen]

/-- Witness for the amended C4 at a concrete input. -/
theorem octree_generator_system_absent_key_panics_witness :
    octree_generator_system (fun v : Nat => decide (v = 0))
      [(1, 2, 3)] [((0, 0, 0), ⟨[1]⟩)] ⟨[], ⟨[]⟩⟩ = none :=
  octree_generator_system_absent_key_panics (fun v : Nat => decide (v = 0))
    [(1, 2, 3)] [((0, 0, 0), ⟨[1]⟩)] ⟨[], ⟨[]⟩⟩ (1, 2, 3)
    (by decide) (by decide)

/-- `empty_chunk_remover_system` from `src/map_io/empty_chunk_remover.rs`:
drains `chunks_to_remove` and removes each drained key from the map's
storage (`voxel_map.voxels.storage_mut().remove(chunk_key)`).  Returns the
drained `EmptyChunks` resource and the updated storage. -/
def empty_chunk_remover_system {V : Type} (empty_chunks : EmptyChunks)
    (storage : List (Point3i × Chunk V)) :
    EmptyChunks × List (Point3i × Chunk V) :=
  (⟨[]⟩, empty_chunks.chunks_to_remove.foldl (fun s k => removeKey k s) storage)

theorem lookupKey_foldl_removeKey {V : Type} (ks : List Point3i)
    (storage : List (Point3i × Chunk V)) (k : Point3i) :
    lookupKey k (ks.foldl (fun s k' => removeKey k' s) storage) =
      if k ∈ ks then none else lookupKey k storage := by
  induction ks generalizing storage with
  | nil => simp
  | cons k₁ rest ih =>
    rw [List.foldl_cons, ih]
    by_cases hmem : k ∈ rest
    · simp [hmem]
    · by_cases heq : k = k₁
      · subst heq
        simp [hmem, lookupKey_removeKey_self]
      · simp [hmem, heq, lookupKey_removeKey_ne heq]

/-- Marking keys one by one from a drained tracker accumulates exactly that
list of keys. -/
theorem mark_for_removal_accumulates (ks : List Point3i) :
    (ks.foldl EmptyChunks.mark_for_removal ⟨[]⟩).chunks_to_remove = ks := by
  have general : ∀ (e : EmptyChunks),
      (ks.foldl EmptyChunks.mark_for_removal e).chunks_to_remove =
        e.chunks_to_remove ++ ks := by
    induction ks with
    | nil => intro e; simp
    | cons k rest ih =>
      intro e
      rw [List.foldl_cons, ih]
      simp [EmptyChunks.mark_for_removal]
  simpa using general ⟨[]⟩

/-- C9: one run of the empty-chunk removal step removes from the Voxel
Map's storage exactly the chunk keys marked via `mark_for_removal` since
the previous run (which drained the list), and leaves the pending-removal
list empty afterwards. -/
theorem empty_chunk_remover_system_spec {V : Type} (ks : List Point3i)
    (storage : List (Point3i × Chunk V)) :
    (empty_chunk_remover_system
        (ks.foldl EmptyChunks.mark_for_removal ⟨[]⟩) storage).1
      = ⟨[]⟩ ∧
    ∀ k, lookupKey k (empty_chunk_remover_system
        (ks.foldl EmptyChunks.mark_for_removal ⟨[]⟩) storage).2 =
      if k ∈ ks then none else lookupKey k storage := by
  refine ⟨rfl, fun k => ?_⟩
  simp only [empty_chunk_remover_system, mark_for_removal_accumulates]
  exact lookupKey_foldl_removeKey ks storage k

/-- Witness for C9: marking `(0,0,0)` removes exactly that chunk and leaves
the pending list drained. -/
theorem empty_chunk_remover_system_spec_witness :
    (empty_chunk_remover_system
        ([((0, 0, 0) : Point3i)].foldl EmptyChunks.mark_for_removal ⟨[]⟩)
        [(((0, 0, 0) : Point3i), (⟨[1]⟩ : Chunk Nat)),
         ((1, 1, 1), ⟨[2]⟩)]).1 = ⟨[]⟩ ∧
    lookupKey (0, 0, 0)
      (empty_chunk_remover_system
        ([((0, 0, 0) : Point3i)].foldl EmptyChunks.mark_for_removal ⟨[]⟩)
        [(((0, 0, 0) : Point3i), (⟨[1]⟩ : Chunk Nat)),
         ((1, 1, 1), ⟨[2]⟩)]).2 = none := by
  have main := empty_chunk_remover_system_spec [((0, 0, 0) : Point3i)]
    [(((0, 0, 0) : Point3i), (⟨[1]⟩ : Chunk Nat)), ((1, 1, 1), ⟨[2]⟩)]
  refine ⟨main.1, ?_⟩
  rw [main.2 (0, 0, 0)]
  decide

/-- `ChunkCacheConfig` from `src/map_io/chunk_compressor.rs`. -/
structure ChunkCacheConfig where
  max_cached_chunks : Nat
  max_chunks_compressed_per_frame_per_thread : Nat

/-- Modelled from the spec: a compressed chunk is an opaque byte payload
produced by a reversible transform; the payload is represented by the chunk
content it encodes. -/
structure CompressedChunk (V : Type) where
  payload : Chunk V
deriving DecidableEq

/-- Modelled from the spec: `Compressible::compress` (the LZ4 codec of the
external `building_blocks` crate), a pure function raw chunk → opaque
payload. -/
def Chunk.compress {V : Type} (c : Chunk V) : CompressedChunk V :=
  ⟨c⟩

/-- Modelled from the spec: decompression, the inverse transform of the
codec. -/
def CompressedChunk.decompress {V : Type} (p : CompressedChunk V) : Chunk V :=
  p.payload

/-- Modelled from the spec: the `CompressibleChunkStorage` of the external
`building_blocks` crate — live (decompressed) chunks ordered by recency of
access with the least-recently-used chunk first, plus compressed chunks. -/
structure CompressibleStorage (V : Type) where
  live : List (Point3i × Chunk V)
  compressed : List (Point3i × CompressedChunk V)
deriving DecidableEq

/-- Modelled from the spec: `len_cached`, the count of live (decompressed)
chunks. -/
def CompressibleStorage.len_cached {V : Type} (s : CompressibleStorage V) :
    Nat :=
  s.live.length

/-- Modelled from the spec: `insert_compressed` replaces or adds the
compressed payload stored at a key. -/
def CompressibleStorage.insert_compressed {V : Type}
    (s : CompressibleStorage V) (k : Point3i) (p : CompressedChunk V) :
    CompressibleStorage V :=
  { s with compressed := insertKey k p s.compressed }

/-- The LRU extraction loop of `chunk_compressor_system`
(`src/map_io/chunk_compressor.rs` lines 44-51): call `remove_lru` up to `n`
times, stopping early (`break`) when the store yields no further live
chunk.  Returns the extracted chunks in eviction order and the store they
were removed from. -/
def removeLruBatch {V : Type} :
    Nat → CompressibleStorage V →
      List (Point3i × Chunk V) × CompressibleStorage V
  | 0, s => ([], s)
  | n + 1, s =>
    match s.live with
    | [] => ([], s)
    | kc :: rest =>
      let step := removeLruBatch n { s with live := rest }
      (kc :: step.1, step.2)

/-- `chunk_compressor_system` from `src/map_io/chunk_compressor.rs`: when
the live count reaches the configured capacity, clamp the batch to
`overgrowth.min(thread_num * max_chunks_compressed_per_frame_per_thread)`,
extract that many least-recently-used chunks, compress them (the parallel
`pool.scope` fork-join batch) and re-insert the payloads as compressed. -/
def chunk_compressor_system {V : Type} (cache_config : ChunkCacheConfig)
    (thread_num : Nat) (s : CompressibleStorage V) : CompressibleStorage V :=
  let num_cached := s.len_cached
  if num_cached < cache_config.max_cached_chunks then s
  else
    let overgrowth := num_cached - cache_config.max_cached_chunks
    let num_to_compress := overgrowth.min
      (thread_num * cache_config.max_chunks_compressed_per_frame_per_thread)
    let batch := removeLruBatch num_to_compress s
    let compressed_chunks := batch.1.map (fun kc => (kc.1, kc.2.compress))
    compressed_chunks.foldl
      (fun st kc => st.insert_compressed kc.1 kc.2) batch.2

theorem removeLruBatch_eq_take_drop {V : Type} (n : Nat)
    (s : CompressibleStorage V) :
    removeLruBatch n s =
      (s.live.take n, { s with live := s.live.drop n }) := by
  induction n generalizing s with
  | zero => simp [removeLruBatch]
  | succ n ih =>
    obtain ⟨live, compressed⟩ := s
    cases live with
    | nil => simp [removeLruBatch]
    | cons kc rest =>
      simp [removeLruBatch, ih]

theorem lookupKey_eq_none_iff {α : Type} (k : Point3i)
    (l : List (Point3i × α)) :
    lookupKey k l = none ↔ k ∉ l.map Prod.fst := by
  induction l with
  | nil => simp [lookupKey]
  | cons kv rest ih =>
    obtain ⟨k', v⟩ := kv
    by_cases h : k' = k
    · subst h
      simp [lookupKey]
    · simp only [lookupKey, if_neg h, List.map_cons, List.mem_cons, not_or,
        ih]
      constructor
      · intro hn
        exact ⟨fun he => h he.symm, hn⟩
      · rintro ⟨-, hn⟩
        exact hn

theorem lookupKey_append {α : Type} (k : Point3i)
    (l₁ l₂ : List (Point3i × α)) :
    lookupKey k (l₁ ++ l₂) =
      match lookupKey k l₁ with
      | some v => some v
      | none => lookupKey k l₂ := by
  induction l₁ with
  | nil => simp [lookupKey]
  | cons kv rest ih =>
    obtain ⟨k', v⟩ := kv
    by_cases h : k' = k <;> simp [lookupKey, h, ih]

theorem mem_of_lookupKey_eq_some {α : Type} {k : Point3i} {v : α}
    {l : List (Point3i × α)} (h : lookupKey k l = some v) : (k, v) ∈ l := by
  induction l with
  | nil => simp [lookupKey] at h
  | cons kv rest ih =>
    obtain ⟨k', v'⟩ := kv
    by_cases heq : k' = k
    · subst heq
      have hv : some v' = some v := by
        rw [← h]
        simp [lookupKey]
      injection hv with hv
      simp [hv]
    · simp only [lookupKey, if_neg heq] at h
      exact List.mem_cons_of_mem _ (ih h)

/-- The compressed re-insertion loop never touches the live side of the
store. -/
theorem live_foldl_insert_compressed {V : Type}
    (l : List (Point3i × CompressedChunk V)) (s : CompressibleStorage V) :
    (l.foldl (fun st kc => st.insert_compressed kc.1 kc.2) s).live =
      s.live := by
  induction l generalizing s with
  | nil => rfl
  | cons kc rest ih =>
    rw [List.foldl_cons, ih]
    rfl

theorem lookup_foldl_insert_compressed_not_mem {V : Type}
    (l : List (Point3i × CompressedChunk V)) (s : CompressibleStorage V)
    (k : Point3i) (hk : k ∉ l.map Prod.fst) :
    lookupKey k
        (l.foldl (fun st kc => st.insert_compressed kc.1 kc.2) s).compressed =
      lookupKey k s.compressed := by
  induction l generalizing s with
  | nil => rfl
  | cons kc rest ih =>
    simp only [List.map_cons, List.mem_cons, not_or] at hk
    rw [List.foldl_cons, ih _ hk.2]
    simp [CompressibleStorage.insert_compressed,
      lookupKey_insertKey_ne hk.1]

theorem lookup_foldl_insert_compressed_mem {V : Type}
    (l : List (Point3i × CompressedChunk V)) (s : CompressibleStorage V)
    (k : Point3i) (p : CompressedChunk V) (hnd : (l.map Prod.fst).Nodup)
    (hmem : (k, p) ∈ l) :
    lookupKey k
        (l.foldl (fun st kc => st.insert_compressed kc.1 kc.2) s).compressed =
      some p := by
  induction l generalizing s with
  | nil => simp at hmem
  | cons kc rest ih =>
    obtain ⟨k', p'⟩ := kc
    simp only [List.map_cons, List.nodup_cons] at hnd
    rcases List.mem_cons.mp hmem with heq | hmem'
    · have hk : k = k' := congrArg Prod.fst heq
      have hp : p = p' := congrArg Prod.snd heq
      subst hk
      subst hp
      rw [List.foldl_cons,
        lookup_foldl_insert_compressed_not_mem rest _ k hnd.1]
      simp [CompressibleStorage.insert_compressed, lookupKey_insertKey_self]
    · exact List.foldl_cons .. ▸ ih _ hnd.2 hmem'

/-- C6: when the live chunk count is below the configured capacity the
compressor pass does nothing — the store is returned unchanged, and the
`overgrowth` subtraction is reached only under the complementary hypothesis
`capacity <= live_count`, so it never underflows. -/
theorem chunk_compressor_system_below_capacity {V : Type}
    (cache_config : ChunkCacheConfig) (thread_num : Nat)
    (s : CompressibleStorage V)
    (h : s.len_cached < cache_config.max_cached_chunks) :
    chunk_compressor_system cache_config thread_num s = s := by
  simp [chunk_compressor_system, h]

/-- Witness for C6: a one-chunk store under a capacity of 10 is untouched. -/
theorem chunk_compressor_system_below_capacity_witness :
    chunk_compressor_system ⟨10, 50⟩ 4
      (⟨[(((0, 0, 0) : Point3i), (⟨[1]⟩ : Chunk Nat))], []⟩ :
        CompressibleStorage Nat) =
      ⟨[(((0, 0, 0) : Point3i), (⟨[1]⟩ : Chunk Nat))], []⟩ :=
  chunk_compressor_system_below_capacity ⟨10, 50⟩ 4
    ⟨[(((0, 0, 0) : Point3i), (⟨[1]⟩ : Chunk Nat))], []⟩ (by decide)

/-- C3: with previous live count `L` at least the capacity `C`, the pass
evicts exactly the least-recently-used prefix of the live list of length
`min (L - C) (thread_num * max_chunks_compressed_per_frame_per_thread)` —
so the number of chunks evicted and compressed is at most that bound and
eviction proceeds in LRU order — and the resulting live count is at most
`max C (L - batch)`. -/
theorem chunk_compressor_system_bounds {V : Type}
    (cache_config : ChunkCacheConfig) (thread_num : Nat)
    (s : CompressibleStorage V)
    (h : cache_config.max_cached_chunks ≤ s.len_cached) :
    (chunk_compressor_system cache_config thread_num s).live =
      s.live.drop ((s.len_cached - cache_config.max_cached_chunks).min
        (thread_num *
          cache_config.max_chunks_compressed_per_frame_per_thread)) ∧
    s.len_cached -
        (chunk_compressor_system cache_config thread_num s).len_cached =
      (s.len_cached - cache_config.max_cached_chunks).min
        (thread_num *
          cache_config.max_chunks_compressed_per_frame_per_thread) ∧
    (chunk_compressor_system cache_config thread_num s).len_cached ≤
      max cache_config.max_cached_chunks
        (s.len_cached -
          (s.len_cached - cache_config.max_cached_chunks).min
            (thread_num *
              cache_config.max_chunks_compressed_per_frame_per_thread)) := by
  have hnotlt : ¬ s.len_cached < cache_config.max_cached_chunks :=
    not_lt.mpr h
  have hlive : (chunk_compressor_system cache_config thread_num s).live =
      s.live.drop ((s.len_cached - cache_config.max_cached_chunks).min
        (thread_num *
          cache_config.max_chunks_compressed_per_frame_per_thread)) := by
    simp only [chunk_compressor_system, hnotlt, if_false,
      removeLruBatch_eq_take_drop, live_foldl_insert_compressed]
  refine ⟨hlive, ?_, ?_⟩
  · have hb : (s.len_cached - cache_config.max_cached_chunks).min
        (thread_num *
          cache_config.max_chunks_compressed_per_frame_per_thread) ≤
        s.len_cached :=
      le_trans (Nat.min_le_left _ _) (Nat.sub_le _ _)
    simp only [CompressibleStorage.len_cached, hlive, List.length_drop]
    simp only [CompressibleStorage.len_cached] at hb
    omega
  · simp only [CompressibleStorage.len_cached, hlive, List.length_drop]
    exact le_max_of_le_right (le_refl _)

/-- Witness for C3 at capacity 1 on a two-chunk store: one chunk (the LRU
head) is evicted and the bounds hold. -/
theorem chunk_compressor_system_bounds_witness :
    (chunk_compressor_system ⟨1, 50⟩ 4
      (⟨[(((0, 0, 0) : Point3i), (⟨[1]⟩ : Chunk Nat)),
         ((1, 1, 1), ⟨[2]⟩)], []⟩ : CompressibleStorage Nat)).live =
      [(((1, 1, 1) : Point3i), (⟨[2]⟩ : Chunk Nat))] := by
  have := chunk_compressor_system_bounds ⟨1, 50⟩ 4
    (⟨[(((0, 0, 0) : Point3i), (⟨[1]⟩ : Chunk Nat)),
       ((1, 1, 1), ⟨[2]⟩)], []⟩ : CompressibleStorage Nat) (by decide)
  rw [this.1]
  decide

/-- C7: when the store yields fewer LRU candidates than the requested batch
size, the extraction loop of the compressor stops at the `break`, yields
exactly the chunks the store produced (all of them, in order), and the
batch handed to compression has exactly that smaller size — no error, no
retry. -/
theorem removeLruBatch_smaller_batch {V : Type} (n : Nat)
    (s : CompressibleStorage V) (h : s.live.length < n) :
    (removeLruBatch n s).1 = s.live ∧
    (removeLruBatch n s).2.live = [] ∧
    ((removeLruBatch n s).1.map
      (fun kc => (kc.1, kc.2.compress))).length = s.live.length := by
  rw [removeLruBatch_eq_take_drop]
  have hle : s.live.length ≤ n := Nat.le_of_lt h
  simp [List.take_of_length_le hle, List.drop_of_length_le hle]

/-- Witness for C7: asking for 5 LRU candidates from a one-chunk store
yields exactly that chunk. -/
theorem removeLruBatch_smaller_batch_witness :
    (removeLruBatch 5
      (⟨[(((0, 0, 0) : Point3i), (⟨[1]⟩ : Chunk Nat))], []⟩ :
        CompressibleStorage Nat)).1 =
      [(((0, 0, 0) : Point3i), (⟨[1]⟩ : Chunk Nat))] :=
  (removeLruBatch_smaller_batch 5
    ⟨[(((0, 0, 0) : Point3i), (⟨[1]⟩ : Chunk Nat))], []⟩ (by decide)).1

/-- Modelled from the spec: a read of a chunk key consults the live chunks
and otherwise "transparently decompresses on demand" from the compressed
store. -/
def CompressibleStorage.readChunk {V : Type} (s : CompressibleStorage V)
    (k : Point3i) : Option (Chunk V) :=
  match lookupKey k s.live with
  | some c => some c
  | none => (lookupKey k s.compressed).map CompressedChunk.decompress

/-- C5: compression round-trips losslessly, and a compressor pass changes
only the representation of evicted chunks: every read, of an evicted key or
any other, returns exactly the content it returned before the pass (hence
the set of chunk keys present in the store is unchanged). -/
theorem chunk_compressor_system_preserves_content {V : Type}
    (cache_config : ChunkCacheConfig) (thread_num : Nat)
    (s : CompressibleStorage V) (hnd : (s.live.map Prod.fst).Nodup) :
    (∀ c : Chunk V, (Chunk.compress c).decompress = c) ∧
    ∀ k, (chunk_compressor_system cache_config thread_num s).readChunk k =
      s.readChunk k := by
  refine ⟨fun c => rfl, fun k => ?_⟩
  by_cases hlt : s.len_cached < cache_config.max_cached_chunks
  · simp [chunk_compressor_system, hlt]
  · set b := (s.len_cached - cache_config.max_cached_chunks).min
      (thread_num *
        cache_config.max_chunks_compressed_per_frame_per_thread) with hb
    have hres : chunk_compressor_system cache_config thread_num s =
        ((s.live.take b).map (fun kc => (kc.1, kc.2.compress))).foldl
          (fun st kc => st.insert_compressed kc.1 kc.2)
          { s with live := s.live.drop b } := by
      simp only [chunk_compressor_system, hlt, if_false,
        removeLruBatch_eq_take_drop, hb]
    have hlive : (chunk_compressor_system cache_config thread_num s).live =
        s.live.drop b := by
      rw [hres, live_foldl_insert_compressed]
    have hsplit : s.live.take b ++ s.live.drop b = s.live :=
      List.take_append_drop b s.live
    have hndsplit : ((s.live.take b).map Prod.fst).Nodup ∧
        ((s.live.drop b).map Prod.fst).Nodup ∧
        ∀ x, x ∈ (s.live.take b).map Prod.fst →
          x ∉ (s.live.drop b).map Prod.fst := by
      have : ((s.live.take b).map Prod.fst ++
          (s.live.drop b).map Prod.fst).Nodup := by
        rw [← List.map_append, hsplit]
        exact hnd
      obtain ⟨h1, h2, h3⟩ := List.nodup_append.mp this
      exact ⟨h1, h2, h3⟩
    have hmlkeys : ∀ l : List (Point3i × Chunk V),
        ((l.map (fun kc => (kc.1, kc.2.compress))).map Prod.fst) =
        l.map Prod.fst := by
      intro l
      induction l with
      | nil => rfl
      | cons kc rest ih => simp [ih]
    by_cases hk : k ∈ (s.live.take b).map Prod.fst
    · have hkdrop : k ∉ (s.live.drop b).map Prod.fst :=
        hndsplit.2.2 k hk
      cases htake : lookupKey k (s.live.take b) with
      | none =>
        exact absurd ((lookupKey_eq_none_iff k _).mp htake) (not_not.mpr hk)
      | some c =>
        have hmemtake : (k, c) ∈ s.live.take b :=
          mem_of_lookupKey_eq_some htake
        have hlookup : lookupKey k s.live = some c := by
          rw [← hsplit, lookupKey_append, htake]
        have hmemml : (k, c.compress) ∈ (s.live.take b).map
            (fun kc => (kc.1, kc.2.compress)) :=
          List.mem_map.mpr ⟨(k, c), hmemtake, rfl⟩
        have hcomp : lookupKey k
            (chunk_compressor_system cache_config thread_num s).compressed =
            some c.compress := by
          rw [hres]
          exact lookup_foldl_insert_compressed_mem _ _ k c.compress
            (hmlkeys (s.live.take b) ▸ hndsplit.1) hmemml
        have hlivenone : lookupKey k
            (chunk_compressor_system cache_config thread_num s).live =
            none := by
          rw [hlive]
          exact (lookupKey_eq_none_iff k _).mpr hkdrop
        simp [CompressibleStorage.readChunk, hlivenone, hcomp, hlookup,
          Chunk.compress, CompressedChunk.decompress]
    · have htake : lookupKey k (s.live.take b) = none :=
        (lookupKey_eq_none_iff k _).mpr hk
      have hlookup : lookupKey k s.live = lookupKey k (s.live.drop b) := by
        conv_lhs => rw [← hsplit]
        rw [lookupKey_append, htake]
      have hcompsame : lookupKey k
          (chunk_compressor_system cache_config thread_num s).compressed =
          lookupKey k s.compressed := by
        rw [hres]
        exact lookup_foldl_insert_compressed_not_mem _ _ k
          (hmlkeys (s.live.take b) ▸ hk)
      cases hdrop : lookupKey k (s.live.drop b) with
      | none =>
        have h1 : lookupKey k s.live = none := by rw [hlookup, hdrop]
        have h2 : lookupKey k
            (chunk_compressor_system cache_config thread_num s).live =
            none := by rw [hlive, hdrop]
        simp [CompressibleStorage.readChunk, h1, h2, hcompsame]
      | some c =>
        have h1 : lookupKey k s.live = some c := by rw [hlookup, hdrop]
        have h2 : lookupKey k
            (chunk_compressor_system cache_config thread_num s).live =
            some c := by rw [hlive, hdrop]
        simp [CompressibleStorage.readChunk, h1, h2]

/-- Witness for C5: after a pass at capacity 1 the evicted LRU chunk reads
back with identical content. -/
theorem chunk_compressor_system_preserves_content_witness :
    (chunk_compressor_system ⟨1, 50⟩ 4
      (⟨[(((0, 0, 0) : Point3i), (⟨[7]⟩ : Chunk Nat)),
         ((1, 1, 1), ⟨[9]⟩)], []⟩ : CompressibleStorage Nat)).readChunk
        (0, 0, 0) =
      (⟨[(((0, 0, 0) : Point3i), (⟨[7]⟩ : Chunk Nat)),
         ((1, 1, 1), ⟨[9]⟩)], []⟩ : CompressibleStorage Nat).readChunk
        (0, 0, 0) :=
  (chunk_compressor_system_preserves_content ⟨1, 50⟩ 4
    ⟨[(((0, 0, 0) : Point3i), (⟨[7]⟩ : Chunk Nat)), ((1, 1, 1), ⟨[9]⟩)], []⟩
    (by decide)).2 (0, 0, 0)

/-- C8: for a voxel whose type index is less than the palette length,
`get_voxel_type_info` returns exactly the palette entry at that index (a
pure O(1) lookup; the palette is a value, never modified); for an
out-of-range index the lookup fails (the Rust indexing panic, modelled as
`none`) — and the in-range case shows that under the invariant that every
stored type index is in range the failure branch is unreachable. -/
theorem get_voxel_type_info_spec {I V : Type} [Voxel V]
    (p : VoxelPalette I) (v : V) :
    (∀ h : Voxel.get_type_index v < p.infos.length,
      p.get_voxel_type_info v =
        some (p.infos.get ⟨Voxel.get_type_index v, h⟩)) ∧
    (p.infos.length ≤ Voxel.get_type_index v →
      p.get_voxel_type_info v = none) := by
  constructor
  · intro h
    simp [VoxelPalette.get_voxel_type_info, List.get?_eq_get h]
  · intro h
    simp only [VoxelPalette.get_voxel_type_info]
    exact List.get?_eq_none.mpr h

/-- Witness for C8 on the two-entry palette: index 1 hits entry 1, index 5
is out of range and fails. -/
theorem get_voxel_type_info_spec_witness :
    VoxelPalette.get_voxel_type_info (⟨[10, 20]⟩ : VoxelPalette Nat)
      (1 : Nat) = some 20 ∧
    VoxelPalette.get_voxel_type_info (⟨[10, 20]⟩ : VoxelPalette Nat)
      (5 : Nat) = none := by
  constructor
  · have := (get_voxel_type_info_spec (⟨[10, 20]⟩ : VoxelPalette Nat)
      (1 : Nat)).1 (by decide)
    simpa using this
  · exact (get_voxel_type_info_spec (⟨[10, 20]⟩ : VoxelPalette Nat)
      (5 : Nat)).2 (by decide)

/-- Modelled from the spec: a pending edit of the Edit Buffer, "(chunk key
→ modified region/values)", as a chunk key together with the written
(voxel index, value) pairs.  The edit-buffer source file is not part of the
provided sources. -/
abbrev Edit (V : Type) := Point3i × List (Nat × V)

/-- Modelled from the spec: merging one buffered edit into the Voxel Map —
"an edit to a chunk key not yet present creates the chunk (filled with the
ambient default) before applying the edit". -/
def applyEdit {V : Type} (ambient : V) (chunk_size : Nat)
    (map : List (Point3i × Chunk V)) (e : Edit V) :
    List (Point3i × Chunk V) :=
  let base := match lookupKey e.1 map with
    | some c => c
    | none => ⟨List.replicate chunk_size ambient⟩
  insertKey e.1 (e.2.foldl (fun c iv => ⟨c.array.set iv.1 iv.2⟩) base) map

/-- Modelled from the spec: the fixed per-cycle ordering around the cycle
boundary — "removal of chunks from the Voxel Map (driven by Empty Chunks)
must be applied strictly after this regeneration step and strictly before
the next cycle's Edit Buffer flush is merged".  The `MapIoPlugin` stage
wiring is not part of the provided sources; the order comes from the spec
and from the doc comment of `EmptyChunks` ("removal happens before the
edit buffer is merged into the `VoxelMap`").  The empty-chunk removal of
cycle N runs first, then the edits buffered during cycle N are merged. -/
def removal_then_merge {V : Type} (ambient : V) (chunk_size : Nat)
    (empty_chunks : EmptyChunks) (edits : List (Edit V))
    (map : List (Point3i × Chunk V)) : List (Point3i × Chunk V) :=
  edits.foldl (applyEdit ambient chunk_size)
    (empty_chunk_remover_system empty_chunks map).2

theorem lookupKey_applyEdit_ne {V : Type} (ambient : V) (chunk_size : Nat)
    (map : List (Point3i × Chunk V)) (e : Edit V) {k : Point3i}
    (h : e.1 ≠ k) :
    lookupKey k (applyEdit ambient chunk_size map e) = lookupKey k map := by
  simp only [applyEdit]
  exact lookupKey_insertKey_ne (fun hh => h hh.symm) _ _

theorem lookupKey_foldl_applyEdit_not_mem {V : Type} (ambient : V)
    (chunk_size : Nat) (edits : List (Edit V))
    (map : List (Point3i × Chunk V)) {k : Point3i}
    (h : k ∉ edits.map Prod.fst) :
    lookupKey k (edits.foldl (applyEdit ambient chunk_size) map) =
      lookupKey k map := by
  induction edits generalizing map with
  | nil => rfl
  | cons e rest ih =>
    simp only [List.map_cons, List.mem_cons, not_or] at h
    rw [List.foldl_cons, ih _ h.2,
      lookupKey_applyEdit_ne _ _ _ _ (fun hh => h.1 hh.symm)]

theorem lookupKey_foldl_applyEdit_mem_isSome {V : Type} (ambient : V)
    (chunk_size : Nat) (edits : List (Edit V))
    (map : List (Point3i × Chunk V)) {k : Point3i}
    (h : k ∈ edits.map Prod.fst) :
    (lookupKey k (edits.foldl (applyEdit ambient chunk_size) map)).isSome :=
  by
  induction edits generalizing map with
  | nil => simp at h
  | cons e rest ih =>
    by_cases hrest : k ∈ rest.map Prod.fst
    · rw [List.foldl_cons]
      exact ih _ hrest
    · have hek : e.1 = k := by
        rcases List.mem_cons.mp (List.map_cons .. ▸ h) with heq | hmem
        · exact heq.symm
        · exact absurd hmem hrest
      rw [List.foldl_cons,
        lookupKey_foldl_applyEdit_not_mem _ _ _ _ hrest]
      simp only [applyEdit, hek]
      rw [lookupKey_insertKey_self]
      rfl

/-- C2: under the modelled per-cycle ordering — empty-chunk removal of the
keys marked in cycle N runs strictly after that cycle's regeneration
produced the marks and strictly before the next edit-buffer merge — a
chunk key rewritten (buffered as an edit) before the removal step executes
is present in the Voxel Map after the cycle boundary: its write survives
even when the key was marked empty in the same cycle. -/
theorem removal_then_merge_rewritten_chunk_survives {V : Type} (ambient : V)
    (chunk_size : Nat) (empty_chunks : EmptyChunks) (edits : List (Edit V))
    (map : List (Point3i × Chunk V)) (k : Point3i)
    (hk : k ∈ edits.map Prod.fst) :
    (lookupKey k
      (removal_then_merge ambient chunk_size empty_chunks edits map)).isSome
    := by
  simp only [removal_then_merge]
  exact lookupKey_foldl_applyEdit_mem_isSome ambient chunk_size edits _ hk

/-- Witness for C2: the key `(0,0,0)` is marked empty and also rewritten in
the same cycle; after removal-then-merge it is still present. -/
theorem removal_then_merge_rewritten_chunk_survives_witness :
    (lookupKey (0, 0, 0)
      (removal_then_merge (0 : Nat) 2 ⟨[(0, 0, 0)]⟩
        [((0, 0, 0), [(0, 1)])]
        [(((0, 0, 0) : Point3i), (⟨[0, 0]⟩ : Chunk Nat))])).isSome :=
  removal_then_merge_rewritten_chunk_survives (0 : Nat) 2 ⟨[(0, 0, 0)]⟩
    [((0, 0, 0), [(0, 1)])]
    [(((0, 0, 0) : Point3i), (⟨[0, 0]⟩ : Chunk Nat))] (0, 0, 0) (by decide)

end BevyBuildingBlocks
